import Mathlib

/-!
Verification of the HTTP test-harness repository: a shallow embedding of
its configuration resolver, retry utility, schema validator, fluent
assertion engine, and transport-client state operations, with theorems
settling the specified properties.
-/

/-! ## A model of JavaScript runtime values

Plain JSON-like data values as they flow through the harness: the model
covers the primitives, arrays and prototype-free plain objects that the
test utilities manipulate.  Objects are insertion-ordered key/value lists
(JavaScript objects never hold duplicate keys).
-/

inductive JsValue : Type where
  | null : JsValue
  | undefined : JsValue
  | bool : Bool → JsValue
  | num : Int → JsValue
  | str : String → JsValue
  | arr : List JsValue → JsValue
  | obj : List (String × JsValue) → JsValue

/-- The JavaScript `typeof` operator on the modelled values. -/
def typeOf : JsValue → String
  | .null => "object"
  | .undefined => "undefined"
  | .bool _ => "boolean"
  | .num _ => "number"
  | .str _ => "string"
  | .arr _ => "object"
  | .obj _ => "object"

/-- A string is a canonical array index when it is the decimal print of a
natural number, as required for JavaScript index access. -/
def parseIndex (k : String) : Option Nat :=
  match k.toNat? with
  | some i => if toString i = k then some i else none
  | none => none

/-- The JavaScript `in` operator: `some b` when `k in v` evaluates to `b`,
`none` when it throws a TypeError (the right operand is not an object).
Objects here are prototype-free plain data, so only own keys count. -/
def hasKey : JsValue → String → Option Bool
  | .obj fields, k => some (fields.any (fun p => p.1 == k))
  | .arr xs, k =>
      some (k == "length" ||
        (match parseIndex k with
         | some i => decide (i < xs.length)
         | none => false))
  | _, _ => none

/-- JavaScript property access `v[k]` on values for which access does not
throw; absent keys yield `undefined`.  String indexing yields one-character
strings, and `length` is exposed on arrays and strings. -/
def getProp : JsValue → String → JsValue
  | .obj fields, k => (fields.lookup k).getD .undefined
  | .arr xs, k =>
      if k = "length" then .num xs.length
      else
        match parseIndex k with
        | some i => (xs.get? i).getD .undefined
        | none => .undefined
  | .str s, k =>
      if k = "length" then .num s.length
      else
        match parseIndex k with
        | some i => ((s.data.get? i).map (fun c => JsValue.str (String.mk [c]))).getD .undefined
        | none => .undefined
  | _, _ => .undefined

/-- The keys enumerated by a JavaScript `for...in` loop: own enumerable
keys of objects, index strings of arrays and strings, nothing for other
primitives. -/
def forInKeys : JsValue → List String
  | .obj fields => fields.map Prod.fst
  | .arr xs => (List.range xs.length).map (fun i => toString i)
  | .str s => (List.range s.length).map (fun i => toString i)
  | _ => []

/-- Strict equality `v === lit` against a string literal. -/
def isStrV : JsValue → String → Bool
  | .str t, s => t == s
  | _, _ => false

/-- Strict equality `s === v` between a string and an arbitrary value
(false whenever `v` is not a string, as `===` never coerces). -/
def strictEqStr (s : String) : JsValue → Bool
  | .str t => s == t
  | _ => false

/-- `Array.isArray`. -/
def isArrV : JsValue → Bool
  | .arr _ => true
  | _ => false

/-- Strict equality against `null`. -/
def isNullV : JsValue → Bool
  | .null => true
  | _ => false

/-- Values of JavaScript type object other than `null`: plain objects and
arrays. -/
def isObjectLike : JsValue → Bool
  | .obj _ => true
  | .arr _ => true
  | _ => false

/-- Template-literal stringification `${v}` (JavaScript `String(v)`):
objects print as `[object Object]`, arrays join their elements with
commas, `null` and `undefined` inside arrays print as empty. -/
def templateStr : JsValue → String
  | .null => "null"
  | .undefined => "undefined"
  | .bool b => if b then "true" else "false"
  | .num n => toString n
  | .str s => s
  | .obj _ => "[object Object]"
  | .arr xs =>
      String.intercalate "," (xs.attach.map (fun v =>
        match v with
        | ⟨.null, _⟩ => ""
        | ⟨.undefined, _⟩ => ""
        | ⟨w, _⟩ => templateStr w))
decreasing_by
  rename_i hw
  have hmem := List.sizeOf_lt_of_mem hw
  simp only [JsValue.arr.sizeOf_spec]
  omega

/-! ## Schema/Response Validator (`validateResponseSchema` in test-utils)

The source walks the schema with `for (const key in schemaObj)`, pushing
messages into a shared `errors` array and recursing with
`validateObject(actualValue, schemaObj[key], fullPath)` whenever the
expected type is the string `object` and the value is non-null.  The
walk is modelled as `validateKeys` over the `for...in` key list; a thrown
TypeError (the `in` operator applied to a non-object) is `Except.error`,
and the pushed messages are returned in order. -/

/-- Rank used for termination: the recursive call always passes the
string `object` as the schema, and from a string schema no further
recursive call can arise. -/
def rankS : JsValue → Nat
  | .str _ => 0
  | _ => 1

def validateKeys (obj schemaObj : JsValue) (path : String) : List String → Except String (List String)
  | [] => Except.ok []
  | key :: rest =>
    let fullPath := if path = "" then key else path ++ "." ++ key
    match hasKey obj key with
    | none => Except.error ("TypeError: cannot use the in operator to search for " ++ fullPath)
    | some false =>
      (validateKeys obj schemaObj path rest).map
        (fun tail => ("Missing property: " ++ fullPath) :: tail)
    | some true =>
      let expectedType := getProp schemaObj key
      let actualValue := getProp obj key
      let actualType := typeOf actualValue
      if isStrV expectedType "array" && !(isArrV actualValue) then
        (validateKeys obj schemaObj path rest).map
          (fun tail => ("Property " ++ fullPath ++ " should be an array, got " ++ actualType) :: tail)
      else if !(isStrV expectedType "array") && !(strictEqStr actualType expectedType) then
        (validateKeys obj schemaObj path rest).map
          (fun tail =>
            ("Property " ++ fullPath ++ " should be " ++ templateStr expectedType ++ ", got " ++ actualType) :: tail)
      else if h3 : isStrV expectedType "object" && !(isNullV actualValue) then
        match validateKeys actualValue expectedType fullPath (forInKeys expectedType) with
        | Except.error e => Except.error e
        | Except.ok nested =>
          (validateKeys obj schemaObj path rest).map (fun tail => nested ++ tail)
      else
        validateKeys obj schemaObj path rest
termination_by keys => (rankS schemaObj, keys.length)
decreasing_by
  all_goals first
  | (apply Prod.Lex.right; simp)
  | (have h4 : isStrV (getProp schemaObj key) "object" = true := by
       rw [Bool.and_eq_true] at h3
       exact h3.1
     have h5 : getProp schemaObj key = JsValue.str "object" := by
       cases hE : getProp schemaObj key <;> rw [hE] at h4 <;> simp [isStrV] at h4
       rw [h4]
     rw [h5]
     cases schemaObj with
     | str s =>
       exfalso
       simp only [getProp] at h5
       split at h5
       · exact JsValue.noConfusion h5
       · split at h5
         · rename_i i hi
           cases hg : s.data.get? i with
           | none => rw [hg] at h5; exact JsValue.noConfusion h5
           | some c =>
             rw [hg] at h5
             simp only [Option.map_some', Option.getD_some] at h5
             have h6 : String.mk [c] = "object" := by
               injection h5
             have h7 : ("object" : String).data.length = 1 := by
               rw [← h6]
               rfl
             exact absurd h7 (by decide)
         · exact JsValue.noConfusion h5
     | null => exact Prod.Lex.left _ _ (by simp [rankS])
     | undefined => exact Prod.Lex.left _ _ (by simp [rankS])
     | bool b => exact Prod.Lex.left _ _ (by simp [rankS])
     | num n => exact Prod.Lex.left _ _ (by simp [rankS])
     | arr xs => exact Prod.Lex.left _ _ (by simp [rankS])
     | obj fs => exact Prod.Lex.left _ _ (by simp [rankS]))

/-- The inner `validateObject(obj, schemaObj, path)` helper of the source:
walk every `for...in` key of the schema against `obj`. -/
def validateObject (obj schemaObj : JsValue) (path : String) : Except String (List String) :=
  validateKeys obj schemaObj path (forInKeys schemaObj)

/-- Result shape `{isValid, errors}` returned by the validator. -/
structure ValidationResult where
  isValid : Bool
  errors : List String
  deriving DecidableEq, Repr

/-- `validateResponseSchema(response, schema)`: validates `response.data`
against the schema, collecting all violations; `isValid` is the test
`errors.length === 0`.  A thrown TypeError is modelled as `Except.error`. -/
def validateResponseSchema (response schema : JsValue) : Except String ValidationResult :=
  let data := getProp response "data"
  match validateObject data schema "" with
  | Except.error e => Except.error e
  | Except.ok errors => Except.ok ⟨errors.length == 0, errors⟩

/-! ## Retry-With-Backoff (`retryWithBackoff` in test-utils)

The source is `attempt = 1; while (attempt <= maxAttempts) { try { return
await fn() } catch { if (attempt === maxAttempts) throw; await
delay(initialDelay * 2^(attempt-1)); attempt++ } }`.  The operation is a
deterministic map from the 1-indexed invocation number to its result, and
a run is summarised by its outcome, its invocation count and the ordered
list of waits performed.  Falling out of the loop (only possible when
`maxAttempts < 1`) resolves with `undefined`. -/

inductive RetryOutcome (E A : Type) : Type where
  | success : A → RetryOutcome E A
  | failure : E → RetryOutcome E A
  | undef : RetryOutcome E A
  deriving DecidableEq, Repr

structure RetryResult (E A : Type) where
  outcome : RetryOutcome E A
  invocations : Nat
  waits : List Int
  deriving DecidableEq, Repr

/-- One pass of the `while` loop starting at the 1-indexed `attempt`; the
`fuel` argument only bounds the recursion and is chosen large enough that
it never runs out while the loop condition holds (`maxAttempts`
iterations suffice, since `attempt` increases by one each time). -/
def retryFrom (fn : Nat → Except E A) (maxAttempts initialDelay : Int) :
    Nat → Nat → RetryResult E A
  | _, 0 => ⟨.undef, 0, []⟩
  | attempt, fuel + 1 =>
    if (attempt : Int) ≤ maxAttempts then
      match fn attempt with
      | .ok a => ⟨.success a, 1, []⟩
      | .error e =>
        if (attempt : Int) = maxAttempts then ⟨.failure e, 1, []⟩
        else
          let r := retryFrom fn maxAttempts initialDelay (attempt + 1) fuel
          ⟨r.outcome, r.invocations + 1, initialDelay * 2 ^ (attempt - 1) :: r.waits⟩
    else ⟨.undef, 0, []⟩

/-- `retryWithBackoff(fn, maxAttempts, initialDelay)` (defaults 3 and
1000 in the source): run the loop from attempt 1. -/
def retryWithBackoff (fn : Nat → Except E A) (maxAttempts : Int := 3)
    (initialDelay : Int := 1000) : RetryResult E A :=
  retryFrom fn maxAttempts initialDelay 1 maxAttempts.toNat

/-! ## Config Resolver (`getEnvironmentConfig` in config.js) -/

/-- One named environment override: the subset of top-level fields the
environment supplies (`none` models an absent key, over which the object
spread is a no-op). -/
structure EnvOverride where
  envBaseUrl : Option String := none
  envTimeout : Option Int := none
  envHeaders : Option (List (String × String)) := none
  deriving DecidableEq, Repr

/-- The base configuration object shape of config.js. -/
structure BaseConfig where
  baseUrl : String
  headers : List (String × String)
  timeout : Int
  retryAttempts : Int
  retryDelay : Int
  environments : List (String × EnvOverride)
  deriving DecidableEq, Repr

/-- The merged configuration returned by `getEnvironmentConfig`. -/
structure ResolvedConfig where
  baseUrl : String
  headers : List (String × String)
  timeout : Int
  retryAttempts : Int
  retryDelay : Int
  environments : List (String × EnvOverride)
  deriving DecidableEq, Repr

/-- JavaScript object spread `{...base, ...env}` on string maps: keys of
`base` keep their position but take the value from `env` when `env` also
has the key; keys only in `env` are appended in their own order. -/
def spreadMerge (base env : List (String × String)) : List (String × String) :=
  base.map (fun p =>
    match env.lookup p.1 with
    | some v => (p.1, v)
    | none => p) ++
  env.filter (fun p => (base.lookup p.1).isNone)

/-- The property names a plain object literal inherits from
`Object.prototype`, which JavaScript bracket access finds when the own
keys miss. -/
def objectPrototypeKeys : List String :=
  ["constructor", "hasOwnProperty", "isPrototypeOf", "propertyIsEnumerable",
   "toLocaleString", "toString", "valueOf",
   "__defineGetter__", "__defineSetter__", "__lookupGetter__", "__lookupSetter__",
   "__proto__"]

/-- `config.environments[environment] || config.environments.development`.
Bracket access consults the prototype chain: when the own keys miss but
the name is an `Object.prototype` member (`toString`, `constructor`, ...),
the access yields that inherited member — a truthy function or object
with no own enumerable properties and no `headers` field, hence
indistinguishable from the empty override in the spreads that follow —
and the `||` fallback does NOT fire.  Only a name absent from both the
own keys and `Object.prototype` yields `undefined` and runs the right
operand.  Environment objects are truthy, so an own hit always wins. -/
def chooseEnv (cfg : BaseConfig) (environment : String) : Option EnvOverride :=
  match cfg.environments.lookup environment with
  | some e => some e
  | none =>
    if environment ∈ objectPrototypeKeys then some {}
    else cfg.environments.lookup "development"

/-- `getEnvironmentConfig(environment = 'development')`: shallow-merge the
chosen override over the base config, then merge `headers` deeply.  The
`none` case models the TypeError that reading `envConfig.headers` off
`undefined` would throw; it cannot occur on the shipped `config`, whose
`development` entry exists. -/
def getEnvironmentConfig (cfg : BaseConfig) (environment : String := "development") :
    Option ResolvedConfig :=
  match chooseEnv cfg environment with
  | none => none
  | some envConfig =>
      some
        { baseUrl := envConfig.envBaseUrl.getD cfg.baseUrl
          headers := spreadMerge cfg.headers (envConfig.envHeaders.getD [])
          timeout := envConfig.envTimeout.getD cfg.timeout
          retryAttempts := cfg.retryAttempts
          retryDelay := cfg.retryDelay
          environments := cfg.environments }

/-- The `config` constant of config.js. -/
def config : BaseConfig :=
  { baseUrl := "https://jsonplaceholder.typicode.com"
    headers :=
      [("Content-Type", "application/json"),
       ("Accept", "application/json"),
       ("User-Agent", "ModularTestFramework/1.0.0")]
    timeout := 10000
    retryAttempts := 3
    retryDelay := 1000
    environments :=
      [("development",
        { envBaseUrl := some "https://jsonplaceholder.typicode.com",
          envTimeout := some 15000 }),
       ("staging",
        { envBaseUrl := some "https://jsonplaceholder-staging.typicode.com",
          envTimeout := some 10000 }),
       ("production",
        { envBaseUrl := some "https://jsonplaceholder.typicode.com",
          envTimeout := some 5000 })] }

/-! ## Assertion Engine (`FluentAssertions` in part_000)

Each check `expect(...)`s a condition with chai and then `return this`;
an assertion failure is a synchronous chai `AssertionError`, modelled as
`Except.error`, and success returns the engine unchanged (`return this`
hands back the very same instance). -/

/-- Chai type tag (type-detect): distinguishes `array` and `null` from
plain `object`, unlike `typeof`. -/
def chaiTypeTag : JsValue → String
  | .null => "null"
  | .undefined => "undefined"
  | .bool _ => "boolean"
  | .num _ => "number"
  | .str _ => "string"
  | .arr _ => "array"
  | .obj _ => "object"

/-- Chai `to.have.property(name)` never throws: missing keys and
primitive targets simply fail the assertion. -/
def hasPropSafe (v : JsValue) (k : String) : Bool :=
  (hasKey v k).getD false

/-- Chai deep equality on the modelled values; objects compare by key
set, not by insertion order. -/
def deepEq : JsValue → JsValue → Bool
  | .null, .null => true
  | .undefined, .undefined => true
  | .bool a, .bool b => a == b
  | .num a, .num b => a == b
  | .str a, .str b => a == b
  | .arr xs, .arr ys =>
      xs.length == ys.length &&
      ((xs.zip ys).attach.all (fun p => deepEq p.1.1 p.1.2))
  | .obj fs, .obj gs =>
      fs.length == gs.length &&
      (fs.attach.all (fun q =>
        match gs.lookup q.1.1 with
        | some w => deepEq q.1.2 w
        | none => false))
  | _, _ => false
termination_by a _ => sizeOf a
decreasing_by
  · obtain ⟨⟨x, y⟩, hp⟩ := p
    have hz := List.of_mem_zip hp
    have hm := List.sizeOf_lt_of_mem hz.1
    simp only [JsValue.arr.sizeOf_spec]
    simp at hm ⊢
    omega
  · obtain ⟨⟨k, v⟩, hq⟩ := q
    have hm := List.sizeOf_lt_of_mem hq
    simp only [JsValue.obj.sizeOf_spec]
    simp at hm ⊢
    omega

/-- Chai `to.deep.include`: on an object target every key/value pair of
the expected object must be present and deep-equal; on an array target
the expected value must be a member. -/
def deepIncludes : JsValue → JsValue → Bool
  | .obj fs, .obj ps =>
      ps.all (fun q =>
        match fs.lookup q.1 with
        | some w => deepEq w q.2
        | none => false)
  | .arr xs, v => xs.any (fun x => deepEq x v)
  | .str s, .str t => (s.data.tails.any (fun suffix => t.data.isPrefixOf suffix))
  | _, _ => false

/-- String length of arrays and strings; `none` for values chai
`lengthOf` rejects. -/
def jsLength : JsValue → Option Nat
  | .arr xs => some xs.length
  | .str s => some s.length
  | _ => none

/-- The response snapshot wrapped by one engine instance. -/
structure Snapshot where
  status : Int
  data : JsValue
  headers : List (String × String)
  responseTime : Option Int

structure FluentAssertions where
  actual : Snapshot

namespace FluentAssertions

def toHaveStatus (fa : FluentAssertions) (expectedStatus : Int) :
    Except String FluentAssertions :=
  if fa.actual.status = expectedStatus then Except.ok fa
  else Except.error ("Expected status " ++ toString expectedStatus ++ ", but got " ++
    toString fa.actual.status)

def toHaveStatusInRange (fa : FluentAssertions) (minStatus maxStatus : Int) :
    Except String FluentAssertions :=
  if minStatus ≤ fa.actual.status ∧ fa.actual.status ≤ maxStatus then Except.ok fa
  else Except.error ("Expected status between " ++ toString minStatus ++ "-" ++
    toString maxStatus ++ ", but got " ++ toString fa.actual.status)

def toHaveBody (fa : FluentAssertions) : Except String FluentAssertions :=
  match fa.actual.data with
  | .undefined => Except.error ("expected data to not be undefined")
  | .null => Except.error ("expected data to not be null")
  | _ => Except.ok fa

/-- `expect(data).to.be.oneOf([null, undefined, '', []])`: chai `oneOf`
compares with strict `===`, so the freshly allocated `[]` literal in the
list is reference-distinct from every value the caller can supply and
only the three primitive members can ever match. -/
def toHaveEmptyBody (fa : FluentAssertions) : Except String FluentAssertions :=
  match fa.actual.data with
  | .null => Except.ok fa
  | .undefined => Except.ok fa
  | .str s => if s = "" then Except.ok fa
      else Except.error ("expected data to be one of null, undefined, empty string, empty array")
  | _ => Except.error ("expected data to be one of null, undefined, empty string, empty array")

def toHaveProperty (fa : FluentAssertions) (property : String) :
    Except String FluentAssertions :=
  if hasPropSafe fa.actual.data property then Except.ok fa
  else Except.error ("expected data to have property " ++ property)

def toHaveProperties (fa : FluentAssertions) (properties : List String) :
    Except String FluentAssertions :=
  match properties.find? (fun p => !(hasPropSafe fa.actual.data p)) with
  | some p => Except.error ("expected data to have property " ++ p)
  | none => Except.ok fa

def toMatchSchema (fa : FluentAssertions) (schema : List (String × JsValue)) :
    Except String FluentAssertions :=
  match schema.find? (fun kv =>
    !(hasPropSafe fa.actual.data kv.1) ||
    (isObjectLike kv.2 && !(chaiTypeTag (getProp fa.actual.data kv.1) == "object"))) with
  | some kv => Except.error ("schema mismatch at property " ++ kv.1)
  | none => Except.ok fa

def toBeArray (fa : FluentAssertions) : Except String FluentAssertions :=
  if chaiTypeTag fa.actual.data == "array" then Except.ok fa
  else Except.error ("expected data to be an array")

def toHaveLength (fa : FluentAssertions) (length : Int) : Except String FluentAssertions :=
  match jsLength fa.actual.data with
  | some n => if (n : Int) = length then Except.ok fa
      else Except.error ("expected data to have length " ++ toString length)
  | none => Except.error ("expected data to have a length")

def toBeObject (fa : FluentAssertions) : Except String FluentAssertions :=
  if chaiTypeTag fa.actual.data == "object" then Except.ok fa
  else Except.error ("expected data to be an object")

def toHaveHeader (fa : FluentAssertions) (headerName : String)
    (headerValue : Option String := none) : Except String FluentAssertions :=
  match fa.actual.headers.lookup headerName.toLower with
  | none => Except.error ("expected headers to include " ++ headerName.toLower)
  | some actual =>
    match headerValue with
    | none => Except.ok fa
    | some v =>
      if actual = v then Except.ok fa
      else Except.error ("expected header " ++ headerName.toLower ++ " to equal " ++ v)

def toContain (fa : FluentAssertions) (expectedData : JsValue) :
    Except String FluentAssertions :=
  if deepIncludes fa.actual.data expectedData then Except.ok fa
  else Except.error ("expected data to deep include the given value")

def toEqual (fa : FluentAssertions) (expectedData : JsValue) :
    Except String FluentAssertions :=
  if deepEq fa.actual.data expectedData then Except.ok fa
  else Except.error ("expected data to deep equal the given value")

/-- Evaluates only when timing data is present; otherwise a silent no-op. -/
def toRespondWithin (fa : FluentAssertions) (maxTime : Int) :
    Except String FluentAssertions :=
  match fa.actual.responseTime with
  | none => Except.ok fa
  | some t =>
    if t < maxTime then Except.ok fa
    else Except.error ("expected response time below " ++ toString maxTime)

/-- Chain continuation: `return this`, nothing else. -/
def and (fa : FluentAssertions) : FluentAssertions := fa

/-- `return this.actual`. -/
def getActual (fa : FluentAssertions) : Snapshot := fa.actual

end FluentAssertions

/-! ## Transport Client mutable state (`HttpClient` in part_004)

The axios instance owns `defaults.baseURL`, `defaults.timeout` and
`defaults.headers.common`; the setter methods mutate exactly these.
Mutation is modelled by explicit state passing. -/

structure ClientState where
  baseURL : String
  timeout : Int
  headers : List (String × String)
  deriving DecidableEq, Repr

/-- JavaScript property assignment `m[k] = v` on a string map: an
existing key keeps its position and takes the new value, a new key is
appended. -/
def setHeaderKey (m : List (String × String)) (k v : String) : List (String × String) :=
  if m.any (fun p => p.1 == k) then
    m.map (fun p => bif p.1 == k then (k, v) else p)
  else
    m ++ [(k, v)]

/-- JavaScript `delete m[k]`. -/
def deleteHeaderKey (m : List (String × String)) (k : String) : List (String × String) :=
  m.filter (fun p => p.1 != k)

/-- `setAuthorization(token, type = 'Bearer')`: assigns
`headers.common['Authorization'] = type + ' ' + token`. -/
def setAuthorization (s : ClientState) (token : String) (type : String := "Bearer") :
    ClientState :=
  { s with headers := setHeaderKey s.headers "Authorization" (type ++ " " ++ token) }

/-- `clearAuthorization()`: deletes `headers.common['Authorization']`. -/
def clearAuthorization (s : ClientState) : ClientState :=
  { s with headers := deleteHeaderKey s.headers "Authorization" }

/-- `setDefaultHeaders(headers)`: `Object.assign(headers.common, headers)`
assigns every entry in order. -/
def setDefaultHeaders (s : ClientState) (headers : List (String × String)) : ClientState :=
  { s with headers := headers.foldl (fun m p => setHeaderKey m p.1 p.2) s.headers }

/-- `setBaseUrl(baseUrl)`. -/
def setBaseUrl (s : ClientState) (baseUrl : String) : ClientState :=
  { s with baseURL := baseUrl }

/-- A small configuration used to exhibit the header-merge behaviour: its
staging environment overrides `Accept` and leaves `User-Agent` alone. -/
def sampleMergeConfig : BaseConfig :=
  { baseUrl := "https://example.test"
    headers := [("Accept", "application/json"), ("User-Agent", "base-agent")]
    timeout := 1000
    retryAttempts := 1
    retryDelay := 1
    environments :=
      [("development", {}),
       ("staging", { envHeaders := some [("Accept", "text/html")] })] }

/-! ## Theorems: Retry-With-Backoff -/

theorem retryFrom_invocations_le {E A : Type} (fn : Nat → Except E A) (M d : Int) :
    ∀ (fuel a : Nat), (retryFrom fn M d a fuel).invocations ≤ fuel := by
  intro fuel
  induction fuel with
  | zero => intro a; simp [retryFrom]
  | succ f ih =>
    intro a
    simp only [retryFrom]
    split
    · cases hfa : fn a with
      | ok v => simp
      | error e =>
        simp only []
        split
        · simp
        · simp only []
          have := ih (a + 1)
          omega
    · simp

theorem range_pow_cons (d : Int) (a k : Nat) (h : 1 ≤ a) :
    d * 2 ^ (a - 1) :: (List.range k).map (fun j => d * 2 ^ (a + 1 - 1 + j))
      = (List.range (k + 1)).map (fun j => d * 2 ^ (a - 1 + j)) := by
  rw [List.range_succ_eq_map, List.map_cons, List.map_map]
  refine congrArg₂ List.cons ?_ ?_
  · show d * 2 ^ (a - 1) = d * 2 ^ (a - 1 + 0)
    norm_num
  · refine List.map_congr_left (fun j _ => ?_)
    show d * 2 ^ (a + 1 - 1 + j) = d * 2 ^ (a - 1 + (j + 1))
    have hexp : a + 1 - 1 + j = a - 1 + (j + 1) := by omega
    rw [hexp]

theorem retryFrom_success {E A : Type} (fn : Nat → Except E A) (M d : Int) (v : A) :
    ∀ (k a fuel : Nat), 1 ≤ a → k + 1 ≤ fuel → ((a : Int) + k ≤ M) →
      (∀ i, a ≤ i → i < a + k → (fn i).isOk = false) →
      fn (a + k) = Except.ok v →
      retryFrom fn M d a fuel =
        ⟨.success v, k + 1, (List.range k).map (fun j => d * 2 ^ (a - 1 + j))⟩ := by
  intro k
  induction k with
  | zero =>
    intro a fuel ha hfuel hM _hfail hok
    obtain ⟨f, rfl⟩ : ∃ f, fuel = f + 1 := ⟨fuel - 1, by omega⟩
    simp only [retryFrom]
    rw [if_pos (by omega : (a : Int) ≤ M)]
    simp only [Nat.add_zero] at hok
    rw [hok]
    simp
  | succ k ih =>
    intro a fuel ha hfuel hM hfail hok
    obtain ⟨f, rfl⟩ : ∃ f, fuel = f + 1 := ⟨fuel - 1, by omega⟩
    have hfaila : (fn a).isOk = false := hfail a (le_refl a) (by omega)
    obtain ⟨e, he⟩ : ∃ e, fn a = Except.error e := by
      cases hfa : fn a with
      | ok w => rw [hfa] at hfaila; simp [Except.isOk, Except.toBool] at hfaila
      | error e => exact ⟨e, rfl⟩
    simp only [retryFrom]
    rw [if_pos (by omega : (a : Int) ≤ M), he]
    dsimp only
    rw [if_neg (by omega : ¬((a : Int) = M))]
    have hrec := ih (a + 1) f (by omega) (by omega) (by push_cast at hM ⊢; omega)
      (by intro i h1 h2; exact hfail i (by omega) (by omega))
      (by rw [show a + 1 + k = a + (k + 1) by omega]; exact hok)
    rw [hrec]
    rw [range_pow_cons d a k ha]

theorem retryFrom_allfail {E A : Type} (fn : Nat → Except E A) (M d : Int) :
    ∀ (n a fuel : Nat), 1 ≤ a → n + 1 ≤ fuel → ((a : Int) + n = M) →
      (∀ i, a ≤ i → (i : Int) ≤ M → (fn i).isOk = false) →
      ∃ e, fn (a + n) = Except.error e ∧
        retryFrom fn M d a fuel =
          ⟨.failure e, n + 1, (List.range n).map (fun j => d * 2 ^ (a - 1 + j))⟩ := by
  intro n
  induction n with
  | zero =>
    intro a fuel ha hfuel hM hfail
    obtain ⟨f, rfl⟩ : ∃ f, fuel = f + 1 := ⟨fuel - 1, by omega⟩
    have hfaila : (fn a).isOk = false := hfail a (le_refl a) (by omega)
    obtain ⟨e, he⟩ : ∃ e, fn a = Except.error e := by
      cases hfa : fn a with
      | ok w => rw [hfa] at hfaila; simp [Except.isOk, Except.toBool] at hfaila
      | error e => exact ⟨e, rfl⟩
    refine ⟨e, by simpa using he, ?_⟩
    simp only [retryFrom]
    rw [if_pos (by omega : (a : Int) ≤ M), he]
    dsimp only
    rw [if_pos (by omega : (a : Int) = M)]
    simp
  | succ n ih =>
    intro a fuel ha hfuel hM hfail
    obtain ⟨f, rfl⟩ : ∃ f, fuel = f + 1 := ⟨fuel - 1, by omega⟩
    have hfaila : (fn a).isOk = false := hfail a (le_refl a) (by omega)
    obtain ⟨e0, he0⟩ : ∃ e0, fn a = Except.error e0 := by
      cases hfa : fn a with
      | ok w => rw [hfa] at hfaila; simp [Except.isOk, Except.toBool] at hfaila
      | error e0 => exact ⟨e0, rfl⟩
    obtain ⟨e, hfe, hrec⟩ := ih (a + 1) f (by omega) (by omega) (by push_cast; omega)
      (by intro i h1 h2; exact hfail i (by omega) h2)
    refine ⟨e, by rw [show a + (n + 1) = a + 1 + n by omega]; exact hfe, ?_⟩
    simp only [retryFrom]
    rw [if_pos (by omega : (a : Int) ≤ M), he0]
    dsimp only
    rw [if_neg (by omega : ¬((a : Int) = M))]
    rw [hrec]
    rw [range_pow_cons d a n ha]

theorem retryFrom_waits {E A : Type} (fn : Nat → Except E A) (M d : Int) :
    ∀ (fuel a : Nat), 1 ≤ a → M + 1 - a ≤ (fuel : Int) →
      ((retryFrom fn M d a fuel).waits =
        (List.range ((retryFrom fn M d a fuel).invocations - 1)).map
          (fun j => d * 2 ^ (a - 1 + j))) ∧
      (((a : Int) ≤ M ∧ 1 ≤ fuel) → 1 ≤ (retryFrom fn M d a fuel).invocations) := by
  intro fuel
  induction fuel with
  | zero =>
    intro a _ha _hfuel
    constructor
    · simp [retryFrom]
    · intro hc
      omega
  | succ f ih =>
    intro a ha hfuel
    by_cases hle : (a : Int) ≤ M
    · simp only [retryFrom]
      rw [if_pos hle]
      cases hfa : fn a with
      | ok v => simp
      | error e =>
        dsimp only
        by_cases heq : (a : Int) = M
        · rw [if_pos heq]
          simp
        · rw [if_neg heq]
          have hih := ih (a + 1) (by omega) (by push_cast; omega)
          have hinner : 1 ≤ (retryFrom fn M d (a + 1) f).invocations := by
            apply hih.2
            constructor
            · push_cast; omega
            · omega
          constructor
          · dsimp only
            obtain ⟨m, hm⟩ : ∃ m, (retryFrom fn M d (a + 1) f).invocations = m + 1 :=
              ⟨(retryFrom fn M d (a + 1) f).invocations - 1, by omega⟩
            rw [hih.1, hm]
            simp only [Nat.add_sub_cancel]
            exact range_pow_cons d a m ha
          · intro _
            dsimp only
            omega
    · simp only [retryFrom]
      rw [if_neg hle]
      constructor
      · simp
      · intro hc
        exact absurd hc.1 hle

/-- C1: for every operation and every `maxAttempts >= 1`,
`retryWithBackoff` invokes the operation at most `maxAttempts` times; if
the operation fails `k` times and then succeeds (`k < maxAttempts`),
exactly `k+1` invocations occur and that attempt's success value is
returned with no further attempts; if every attempt fails, exactly
`maxAttempts` invocations occur and the final attempt's failure
propagates unchanged. -/
theorem retryWithBackoff_attempt_contract {E A : Type} (fn : Nat → Except E A)
    (M d : Int) (h : 1 ≤ M) :
    (((retryWithBackoff fn M d).invocations : Int) ≤ M) ∧
    (∀ (k : Nat) (v : A), (k : Int) < M →
      (∀ i, 1 ≤ i → i ≤ k → (fn i).isOk = false) →
      fn (k + 1) = Except.ok v →
      (retryWithBackoff fn M d).outcome = RetryOutcome.success v ∧
        (retryWithBackoff fn M d).invocations = k + 1) ∧
    ((∀ i : Nat, 1 ≤ i → (i : Int) ≤ M → (fn i).isOk = false) →
      ∃ e, fn M.toNat = Except.error e ∧
        (retryWithBackoff fn M d).outcome = RetryOutcome.failure e ∧
        (retryWithBackoff fn M d).invocations = M.toNat) := by
  have htn : (M.toNat : Int) = M := Int.toNat_of_nonneg (by omega)
  refine ⟨?_, ?_, ?_⟩
  · have := retryFrom_invocations_le fn M d M.toNat 1
    unfold retryWithBackoff
    omega
  · intro k v hk hfail hok
    have hs := retryFrom_success fn M d v k 1 M.toNat (le_refl 1)
      (by omega) (by omega)
      (by intro i h1 h2; exact hfail i h1 (by omega))
      (by rw [show 1 + k = k + 1 by omega]; exact hok)
    unfold retryWithBackoff
    rw [hs]
    exact ⟨rfl, rfl⟩
  · intro hfail
    have hf := retryFrom_allfail fn M d (M.toNat - 1) 1 M.toNat (le_refl 1)
      (by omega) (by push_cast; omega)
      (by intro i h1 h2; exact hfail i h1 h2)
    obtain ⟨e, he, hr⟩ := hf
    refine ⟨e, ?_, ?_, ?_⟩
    · rw [show M.toNat = 1 + (M.toNat - 1) by omega]
      exact he
    · unfold retryWithBackoff
      rw [hr]
    · unfold retryWithBackoff
      rw [hr]
      simp only []
      omega

/-- Witness for C1 at a concrete operation failing once then succeeding,
with `maxAttempts = 2`. -/
theorem retryWithBackoff_attempt_contract_witness :
    (retryWithBackoff (fun n => if n = 1 then Except.error "boom" else Except.ok (42 : Int))
        2 5).outcome = RetryOutcome.success 42 ∧
    (retryWithBackoff (fun n => if n = 1 then Except.error "boom" else Except.ok (42 : Int))
        2 5).invocations = 2 := by
  have h := (retryWithBackoff_attempt_contract
    (fun n => if n = 1 then Except.error "boom" else Except.ok (42 : Int)) 2 5
    (by decide)).2.1 1 42 (by decide)
    (by intro i h1 h2
        have : i = 1 := by omega
        subst this
        rfl)
    (by rfl)
  exact ⟨h.1, h.2⟩

/-- C2: in every run with `maxAttempts >= 1` the recorded waits are
exactly `initialDelay * 2^(i-1)` after the `i`-th (failing, non-final)
attempt, in order, and there is one fewer wait than invocations — no
wait after the final attempt. -/
theorem retryWithBackoff_backoff_schedule {E A : Type} (fn : Nat → Except E A)
    (M d : Int) (h : 1 ≤ M) :
    ((retryWithBackoff fn M d).waits =
      (List.range ((retryWithBackoff fn M d).invocations - 1)).map (fun j => d * 2 ^ j)) ∧
    (retryWithBackoff fn M d).waits.length = (retryWithBackoff fn M d).invocations - 1 := by
  have htn : (M.toNat : Int) = M := Int.toNat_of_nonneg (by omega)
  have hw := (retryFrom_waits fn M d M.toNat 1 (le_refl 1) (by omega)).1
  unfold retryWithBackoff
  constructor
  · rw [hw]
    refine List.map_congr_left (fun j _ => ?_)
    norm_num
  · rw [hw]
    simp

/-- Witness for C2: Scenario D — `maxAttempts = 3`, `initialDelay = 100`,
operation failing twice then succeeding waits 100ms then 200ms. -/
theorem retryWithBackoff_backoff_schedule_witness :
    (retryWithBackoff (fun n => if n ≤ 2 then Except.error "transient" else Except.ok (7 : Int))
        3 100).waits = [100, 200] ∧
    (retryWithBackoff (fun n => if n ≤ 2 then Except.error "transient" else Except.ok (7 : Int))
        3 100).outcome = RetryOutcome.success 7 := by
  constructor
  · have h := (retryWithBackoff_backoff_schedule
      (fun n => if n ≤ 2 then Except.error "transient" else Except.ok (7 : Int))
      3 100 (by decide)).1
    rw [h]
    decide
  · decide

/-- C10: with `maxAttempts <= 0` the while loop body never runs, the
operation is never invoked, and the promise resolves with `undefined`. -/
theorem retryWithBackoff_nonpositive_max {E A : Type} (fn : Nat → Except E A)
    (M d : Int) (h : M ≤ 0) :
    retryWithBackoff fn M d = ⟨RetryOutcome.undef, 0, []⟩ := by
  unfold retryWithBackoff
  rw [Int.toNat_of_nonpos h]
  rfl

/-- Witness for C10 at `maxAttempts = 0`. -/
theorem retryWithBackoff_nonpositive_max_witness :
    retryWithBackoff (fun _ => (Except.ok 1 : Except String Int)) 0 7
      = ⟨RetryOutcome.undef, 0, ([] : List Int)⟩ :=
  retryWithBackoff_nonpositive_max (fun _ => (Except.ok 1 : Except String Int)) 0 7 (by decide)

/-! ## Theorems: Config Resolver -/

theorem lookup_map_override (env : List (String × String)) (k : String) :
    ∀ base : List (String × String),
      (base.map (fun p =>
        match env.lookup p.1 with
        | some v => (p.1, v)
        | none => p)).lookup k = (base.lookup k).map (fun v => (env.lookup k).getD v) := by
  intro base
  induction base with
  | nil => simp
  | cons hd t ih =>
    obtain ⟨k0, v0⟩ := hd
    cases h0 : (k == k0) with
    | true =>
      have hk : k = k0 := eq_of_beq h0
      subst hk
      cases henv : env.lookup k with
      | some v => simp [List.lookup, henv]
      | none => simp [List.lookup, henv]
    | false =>
      cases henv : env.lookup k0 with
      | some v => simp [List.lookup, henv, h0, ih]
      | none => simp [List.lookup, henv, h0, ih]

theorem lookup_filter_keyfun (cond : String → Bool) (k : String) :
    ∀ env : List (String × String),
      (env.filter (fun p => cond p.1)).lookup k = if cond k then env.lookup k else none := by
  intro env
  induction env with
  | nil => simp
  | cons hd t ih =>
    obtain ⟨k0, v0⟩ := hd
    cases h0 : (k == k0) with
    | true =>
      have hk : k = k0 := eq_of_beq h0
      subst hk
      cases hc : cond k with
      | true => simp [List.filter, List.lookup, hc, ih]
      | false => simp [List.filter, List.lookup, hc, ih]
    | false =>
      cases hc : cond k0 with
      | true => simp [List.filter, List.lookup, hc, h0, ih]
      | false => simp [List.filter, List.lookup, hc, h0, ih]

theorem lookup_append_or (ys : List (String × String)) (k : String) :
    ∀ xs : List (String × String),
      ((xs ++ ys).lookup k) = ((xs.lookup k).orElse (fun _ => ys.lookup k)) := by
  intro xs
  induction xs with
  | nil => simp [Option.orElse]
  | cons hd t ih =>
    obtain ⟨k0, v0⟩ := hd
    cases h0 : (k == k0) with
    | true => simp [List.lookup, h0, Option.orElse]
    | false => simp [List.lookup, h0, ih]

theorem spreadMerge_lookup_env (base env : List (String × String)) (k : String)
    (h : (env.lookup k).isSome = true) :
    (spreadMerge base env).lookup k = env.lookup k := by
  unfold spreadMerge
  rw [lookup_append_or, lookup_map_override]
  obtain ⟨w, hw⟩ := Option.isSome_iff_exists.mp h
  cases hb : base.lookup k with
  | some v => simp [hw, Option.orElse]
  | none =>
    rw [hw]
    simp only [Option.map_none', Option.none_orElse]
    rw [lookup_filter_keyfun (fun x => (List.lookup x base).isNone) k env]
    simp [hb, hw]

theorem spreadMerge_lookup_base (base env : List (String × String)) (k : String)
    (h : env.lookup k = none) :
    (spreadMerge base env).lookup k = base.lookup k := by
  unfold spreadMerge
  rw [lookup_append_or, lookup_map_override]
  cases hb : base.lookup k with
  | some v => simp [h, Option.orElse]
  | none =>
    simp only [Option.map_none', Option.none_orElse]
    rw [lookup_filter_keyfun (fun x => (List.lookup x base).isNone) k env]
    simp [hb, h]

/-- C3 (counterexample): the universal fallback fails on the shipped
`config` — `toString` is not a key of `config.environments`, yet bracket
access finds the inherited `Object.prototype.toString`, which is truthy,
so the development fallback is skipped: the result keeps the base
timeout 10000 instead of the development merge's 15000. -/
theorem getEnvironmentConfig_total_fallback_counterexample :
    config.environments.lookup "toString" = none ∧
    (getEnvironmentConfig config "toString").map ResolvedConfig.timeout = some 10000 ∧
    (getEnvironmentConfig config "development").map ResolvedConfig.timeout = some 15000 ∧
    getEnvironmentConfig config "toString" ≠ getEnvironmentConfig config "development" := by
  refine ⟨rfl, rfl, rfl, ?_⟩
  intro h
  have h2 : (some (10000 : Int) : Option Int) = some 15000 := by
    calc (some (10000 : Int) : Option Int)
        = (getEnvironmentConfig config "toString").map ResolvedConfig.timeout := rfl
      _ = (getEnvironmentConfig config "development").map ResolvedConfig.timeout := by rw [h]
      _ = some 15000 := rfl
  injection h2 with h3
  exact absurd h3 (by decide)

/-- C3 (amended): `getEnvironmentConfig` on the shipped `config` returns
normally for every environment name; for every name that is neither an
own key of `config.environments` nor an inherited `Object.prototype`
member name, it returns the development environment's merged
configuration; for an inherited `Object.prototype` name the truthy
inherited member is chosen instead, it overrides nothing, and the result
is the base configuration unmerged. -/
theorem getEnvironmentConfig_prototype_fallback (environment : String) :
    (∃ r, getEnvironmentConfig config environment = some r) ∧
    (config.environments.lookup environment = none →
      environment ∉ objectPrototypeKeys →
      getEnvironmentConfig config environment = getEnvironmentConfig config "development") ∧
    (config.environments.lookup environment = none →
      environment ∈ objectPrototypeKeys →
      getEnvironmentConfig config environment
        = some { baseUrl := config.baseUrl, headers := spreadMerge config.headers [],
                 timeout := config.timeout, retryAttempts := config.retryAttempts,
                 retryDelay := config.retryDelay, environments := config.environments }) := by
  cases hl : config.environments.lookup environment with
  | some e =>
    refine ⟨?_, ?_, ?_⟩
    · have hs : (getEnvironmentConfig config environment).isSome = true := by
        simp only [getEnvironmentConfig, chooseEnv, hl]
        rfl
      exact Option.isSome_iff_exists.mp hs
    · intro hnone _
      exact Option.noConfusion hnone
    · intro hnone _
      exact Option.noConfusion hnone
  | none =>
    by_cases hmem : environment ∈ objectPrototypeKeys
    · refine ⟨?_, ?_, ?_⟩
      · have hs : (getEnvironmentConfig config environment).isSome = true := by
          simp only [getEnvironmentConfig, chooseEnv, hl]
          rw [if_pos hmem]
          rfl
        exact Option.isSome_iff_exists.mp hs
      · intro _ hnot
        exact absurd hmem hnot
      · intro _ _
        simp only [getEnvironmentConfig, chooseEnv, hl]
        rw [if_pos hmem]
        rfl
    · refine ⟨?_, ?_, ?_⟩
      · have hs : (getEnvironmentConfig config environment).isSome = true := by
          simp only [getEnvironmentConfig, chooseEnv, hl]
          rw [if_neg hmem]
          rfl
        exact Option.isSome_iff_exists.mp hs
      · intro _ _
        simp only [getEnvironmentConfig, chooseEnv, hl]
        rw [if_neg hmem]
        rfl
      · intro _ hmem2
        exact absurd hmem2 hmem

/-- Witness for C3 (amended): the absent, non-inherited name `qa` falls
back to the development merge, while the inherited name `toString` keeps
the unmerged base configuration. -/
theorem getEnvironmentConfig_prototype_fallback_witness :
    getEnvironmentConfig config "qa" = getEnvironmentConfig config "development" ∧
    getEnvironmentConfig config "toString"
      = some { baseUrl := config.baseUrl, headers := spreadMerge config.headers [],
               timeout := config.timeout, retryAttempts := config.retryAttempts,
               retryDelay := config.retryDelay, environments := config.environments } :=
  ⟨(getEnvironmentConfig_prototype_fallback "qa").2.1 rfl (by decide),
   (getEnvironmentConfig_prototype_fallback "toString").2.2 rfl (by decide)⟩

/-- C4: the resolved `headers` are the right-biased union of the base
headers and the chosen environment's headers: on any key the environment
value wins when present, and base-only keys keep their base value. -/
theorem getEnvironmentConfig_header_merge (cfg : BaseConfig) (environment : String)
    (e : EnvOverride) (r : ResolvedConfig)
    (h1 : chooseEnv cfg environment = some e)
    (h2 : getEnvironmentConfig cfg environment = some r) (k : String) :
    (((e.envHeaders.getD []).lookup k).isSome = true →
      r.headers.lookup k = (e.envHeaders.getD []).lookup k) ∧
    ((e.envHeaders.getD []).lookup k = none →
      r.headers.lookup k = cfg.headers.lookup k) := by
  have hr : r.headers = spreadMerge cfg.headers (e.envHeaders.getD []) := by
    unfold getEnvironmentConfig at h2
    rw [h1] at h2
    simp only [Option.some.injEq] at h2
    rw [← h2]
  rw [hr]
  exact ⟨spreadMerge_lookup_env cfg.headers (e.envHeaders.getD []) k,
    spreadMerge_lookup_base cfg.headers (e.envHeaders.getD []) k⟩

/-- Witness for C4 on `sampleMergeConfig`: the environment wins on the
shared `Accept` key and the base `User-Agent` entry is retained. -/
theorem getEnvironmentConfig_header_merge_witness :
    ∃ r, getEnvironmentConfig sampleMergeConfig "staging" = some r ∧
      r.headers.lookup "Accept" = some "text/html" ∧
      r.headers.lookup "User-Agent" = some "base-agent" := by
  refine ⟨_, rfl, ?_, ?_⟩
  · have h := (getEnvironmentConfig_header_merge sampleMergeConfig "staging" _ _ rfl rfl
      "Accept").1 (by rfl)
    rw [h]
    rfl
  · have h := (getEnvironmentConfig_header_merge sampleMergeConfig "staging" _ _ rfl rfl
      "User-Agent").2 (by rfl)
    rw [h]
    rfl

/-! ## Theorems: Schema/Response Validator -/

theorem getProp_str_ne_object (s key : String) :
    ¬ getProp (JsValue.str s) key = JsValue.str "object" := by
  intro h5
  simp only [getProp] at h5
  split at h5
  · exact JsValue.noConfusion h5
  · split at h5
    · rename_i i _hi
      cases hg : s.data.get? i with
      | none => rw [hg] at h5; exact JsValue.noConfusion h5
      | some c =>
        rw [hg] at h5
        simp only [Option.map_some', Option.getD_some] at h5
        have h6 : String.mk [c] = "object" := by injection h5
        have h7 : ("object" : String).data.length = 1 := by
          rw [← h6]
          rfl
        exact absurd h7 (by decide)
    · exact JsValue.noConfusion h5

theorem isStrV_eq_of (v : JsValue) (s : String) (h : isStrV v s = true) :
    v = JsValue.str s := by
  cases v <;> simp [isStrV] at h
  rw [h]

theorem isStrV_object_getProp_str (s key : String) :
    isStrV (getProp (JsValue.str s) key) "object" = false := by
  cases hE : getProp (JsValue.str s) key with
  | str t =>
    by_cases ht : t = "object"
    · subst ht
      exact absurd hE (getProp_str_ne_object s key)
    · simp [isStrV, ht]
  | null => simp [isStrV]
  | undefined => simp [isStrV]
  | bool b => simp [isStrV]
  | num n => simp [isStrV]
  | arr xs => simp [isStrV]
  | obj fs => simp [isStrV]

theorem hasKey_isSome_of_objectLike (obj : JsValue) (key : String)
    (h : isObjectLike obj = true) : (hasKey obj key).isSome = true := by
  cases obj <;> simp_all [hasKey, isObjectLike]

theorem isObjectLike_of_typeOf (a : JsValue) (ht : typeOf a = "object")
    (hn : isNullV a = false) : isObjectLike a = true := by
  cases a <;> simp_all [typeOf, isNullV, isObjectLike]

theorem validateKeys_strobj_ok (obj : JsValue) (path : String) :
    ∀ keys : List String, isObjectLike obj = true →
      ∃ es, validateKeys obj (JsValue.str "object") path keys = Except.ok es := by
  intro keys
  induction keys with
  | nil => intro _h; exact ⟨[], by simp [validateKeys]⟩
  | cons key rest ih =>
    intro h
    obtain ⟨es, hes⟩ := ih h
    obtain ⟨b, hb⟩ := Option.isSome_iff_exists.mp (hasKey_isSome_of_objectLike obj key h)
    simp only [validateKeys, hb]
    cases b with
    | false =>
      rw [hes]
      exact ⟨_, rfl⟩
    | true =>
      dsimp only
      split
      · rw [hes]
        exact ⟨_, rfl⟩
      · split
        · rw [hes]
          exact ⟨_, rfl⟩
        · rw [dif_neg (by simp [isStrV_object_getProp_str])]
          exact ⟨es, hes⟩

theorem validateKeys_ok_of_objectLike (schemaObj : JsValue) (path : String) :
    ∀ (keys : List String) (obj : JsValue), isObjectLike obj = true →
      ∃ es, validateKeys obj schemaObj path keys = Except.ok es := by
  intro keys
  induction keys with
  | nil => intro obj _h; exact ⟨[], by simp [validateKeys]⟩
  | cons key rest ih =>
    intro obj h
    obtain ⟨es, hes⟩ := ih obj h
    obtain ⟨b, hb⟩ := Option.isSome_iff_exists.mp (hasKey_isSome_of_objectLike obj key h)
    simp only [validateKeys, hb]
    cases b with
    | false =>
      rw [hes]
      exact ⟨_, rfl⟩
    | true =>
      dsimp only
      generalize (if path = "" then key else path ++ "." ++ key) = fp
      split
      · rw [hes]
        exact ⟨_, rfl⟩
      · split
        · rw [hes]
          exact ⟨_, rfl⟩
        · rename_i hc1 hc2
          split
          · rename_i hc3
            rw [Bool.and_eq_true] at hc3
            have he : getProp schemaObj key = JsValue.str "object" :=
              isStrV_eq_of _ _ hc3.1
            have hnn : isNullV (getProp obj key) = false := by
              have h2 := hc3.2
              rwa [Bool.not_eq_true'] at h2
            have hto : typeOf (getProp obj key) = "object" := by
              rw [he] at hc2
              simp only [isStrV, strictEqStr] at hc2
              simp at hc2
              exact hc2
            have ha := isObjectLike_of_typeOf _ hto hnn
            rw [he]
            obtain ⟨nes, hnes⟩ := validateKeys_strobj_ok (getProp obj key) fp
              (forInKeys (JsValue.str "object")) ha
            rw [hnes]
            dsimp only
            rw [hes]
            exact ⟨_, rfl⟩
          · exact ⟨es, hes⟩

/-- C5 (counterexample): the claim that `validateResponseSchema` never
raises fails — with `response.data = null` and the non-empty schema
`{id: 'number'}` the `in` operator is applied to `null` and a TypeError
is thrown instead of a result being returned. -/
theorem validateResponseSchema_raises_on_null_data :
    validateResponseSchema (JsValue.obj [("data", JsValue.null)])
      (JsValue.obj [("id", JsValue.str "number")])
    = Except.error "TypeError: cannot use the in operator to search for id" := by
  simp [validateResponseSchema, validateObject, validateKeys, forInKeys, hasKey, getProp]

/-- C5 (amended): for every response whose `data` is a non-null object or
array and every schema, `validateResponseSchema` returns normally with a
result `{isValid, errors}` in which `isValid` is true exactly when
`errors` is empty; the unrestricted claim fails for null, undefined and
primitive `data` (see the counterexample). -/
theorem validateResponseSchema_total_on_objects (response schema : JsValue)
    (h : isObjectLike (getProp response "data") = true) :
    ∃ r, validateResponseSchema response schema = Except.ok r ∧
      (r.isValid = true ↔ r.errors = []) := by
  obtain ⟨es, hes⟩ := validateKeys_ok_of_objectLike schema "" (forInKeys schema)
    (getProp response "data") h
  refine ⟨⟨es.length == 0, es⟩, ?_, ?_⟩
  · simp only [validateResponseSchema, validateObject]
    rw [hes]
  · simp [List.length_eq_zero]

/-- Witness for C5 (amended) at Scenario C data. -/
theorem validateResponseSchema_total_on_objects_witness :
    ∃ r, validateResponseSchema (JsValue.obj [("data", JsValue.obj [("id", JsValue.num 1)])])
        (JsValue.obj [("id", JsValue.str "number"), ("title", JsValue.str "string")])
      = Except.ok r ∧ (r.isValid = true ↔ r.errors = []) :=
  validateResponseSchema_total_on_objects _ _ (by rfl)

theorem validateKeys_missing_mem (obj schemaObj : JsValue) (path : String) :
    ∀ (keys : List String) (es : List String) (k : String),
      validateKeys obj schemaObj path keys = Except.ok es →
      k ∈ keys → hasKey obj k = some false →
      ("Missing property: " ++ (if path = "" then k else path ++ "." ++ k)) ∈ es := by
  intro keys
  induction keys with
  | nil =>
    intro es k _hok hmem _hmiss
    cases hmem
  | cons key rest ih =>
    intro es k hok hmem hmiss
    rw [List.mem_cons] at hmem
    simp only [validateKeys] at hok
    rcases hmem with rfl | hmem
    · rw [hmiss] at hok
      cases hrest : validateKeys obj schemaObj path rest with
      | error e =>
        rw [hrest] at hok
        exact Except.noConfusion hok
      | ok tail =>
        rw [hrest] at hok
        simp only [Except.map] at hok
        injection hok with hok2
        rw [← hok2]
        exact List.mem_cons_self _ _
    · cases hhk : hasKey obj key with
      | none =>
        rw [hhk] at hok
        exact Except.noConfusion hok
      | some b =>
        rw [hhk] at hok
        cases b with
        | false =>
          cases hrest : validateKeys obj schemaObj path rest with
          | error e =>
            rw [hrest] at hok
            exact Except.noConfusion hok
          | ok tail =>
            rw [hrest] at hok
            simp only [Except.map] at hok
            injection hok with hok2
            rw [← hok2]
            exact List.mem_cons_of_mem _ (ih tail k hrest hmem hmiss)
        | true =>
          dsimp only at hok
          split at hok
          · cases hrest : validateKeys obj schemaObj path rest with
            | error e =>
              rw [hrest] at hok
              exact Except.noConfusion hok
            | ok tail =>
              rw [hrest] at hok
              simp only [Except.map] at hok
              injection hok with hok2
              rw [← hok2]
              exact List.mem_cons_of_mem _ (ih tail k hrest hmem hmiss)
          · split at hok
            · cases hrest : validateKeys obj schemaObj path rest with
              | error e =>
                rw [hrest] at hok
                exact Except.noConfusion hok
              | ok tail =>
                rw [hrest] at hok
                simp only [Except.map] at hok
                injection hok with hok2
                rw [← hok2]
                exact List.mem_cons_of_mem _ (ih tail k hrest hmem hmiss)
            · split at hok
              · split at hok
                · exact Except.noConfusion hok
                · cases hrest : validateKeys obj schemaObj path rest with
                  | error e =>
                    rw [hrest] at hok
                    exact Except.noConfusion hok
                  | ok tail =>
                    rw [hrest] at hok
                    simp only [Except.map] at hok
                    injection hok with hok2
                    rw [← hok2]
                    exact List.mem_append_right _ (ih tail k hrest hmem hmiss)
              · exact ih es k hok hmem hmiss

theorem validateKeys_nested_object_step (obj schemaObj : JsValue) (path k : String)
    (rest : List String) (nf : List (String × JsValue))
    (hk : hasKey obj k = some true) (hs : getProp schemaObj k = JsValue.obj nf) :
    validateKeys obj schemaObj path (k :: rest) =
      Except.map (fun tail =>
        ("Property " ++ (if path = "" then k else path ++ "." ++ k) ++
          " should be [object Object], got " ++ typeOf (getProp obj k)) :: tail)
        (validateKeys obj schemaObj path rest) := by
  have hc1 : (isStrV (JsValue.obj nf) "array" && !isArrV (getProp obj k)) = false := by
    simp [isStrV]
  have hc2 : (!isStrV (JsValue.obj nf) "array" &&
      !strictEqStr (typeOf (getProp obj k)) (JsValue.obj nf)) = true := by
    simp [isStrV, strictEqStr]
  simp only [validateKeys, hk, hs, hc1, hc2]
  simp [templateStr, String.append_assoc]

/-- C6 (counterexample): on `data = {a: {b: 1}}` with the nested schema
`{a: {b: 'number'}}` the validator does NOT recurse into the nested
schema (which would find no violation and yield `{isValid: true,
errors: []}`); it records a type mismatch against the stringified schema
node instead. -/
theorem validateResponseSchema_nested_counterexample :
    validateResponseSchema
      (JsValue.obj [("data", JsValue.obj [("a", JsValue.obj [("b", JsValue.num 1)])])])
      (JsValue.obj [("a", JsValue.obj [("b", JsValue.str "number")])])
      = Except.ok ⟨false, ["Property a should be [object Object], got object"]⟩ ∧
    (Except.ok (⟨false, ["Property a should be [object Object], got object"]⟩ : ValidationResult)
      : Except String ValidationResult)
      ≠ Except.ok (⟨true, []⟩ : ValidationResult) := by
  constructor
  · simp [validateResponseSchema, validateObject, validateKeys, forInKeys, hasKey, getProp,
      typeOf, isStrV, strictEqStr, isArrV, isNullV, templateStr, parseIndex, Except.map]
  · intro hcontra
    injection hcontra with hinj
    have hbool : (false : Bool) = true := congrArg ValidationResult.isValid hinj
    exact Bool.noConfusion hbool

/-- C6 (amended): the validator walks every schema key without
short-circuiting — every missing key contributes its own
`Missing property: <dotted.path>` message — but a schema key mapping to a
nested schema object is not recursed into: the step records the type
mismatch `Property <path> should be [object Object], got <typeof>` and
the walk continues with the remaining keys. -/
theorem validateResponseSchema_walk_behaviour :
    (∀ (df sf : List (String × JsValue)) (r : ValidationResult) (k : String),
      validateResponseSchema (JsValue.obj [("data", JsValue.obj df)]) (JsValue.obj sf)
        = Except.ok r →
      k ∈ sf.map Prod.fst → hasKey (JsValue.obj df) k = some false →
      ("Missing property: " ++ k) ∈ r.errors) ∧
    (∀ (obj schemaObj : JsValue) (path k : String) (rest : List String)
      (nf : List (String × JsValue)),
      hasKey obj k = some true → getProp schemaObj k = JsValue.obj nf →
      validateKeys obj schemaObj path (k :: rest) =
        Except.map (fun tail =>
          ("Property " ++ (if path = "" then k else path ++ "." ++ k) ++
            " should be [object Object], got " ++ typeOf (getProp obj k)) :: tail)
          (validateKeys obj schemaObj path rest)) := by
  constructor
  · intro df sf r k hok hmem hmiss
    simp only [validateResponseSchema, validateObject] at hok
    cases hv : validateKeys (getProp (JsValue.obj [("data", JsValue.obj df)]) "data")
        (JsValue.obj sf) "" (forInKeys (JsValue.obj sf)) with
    | error e =>
      rw [hv] at hok
      exact Except.noConfusion hok
    | ok es =>
      rw [hv] at hok
      dsimp only at hok
      injection hok with hok2
      have hmm := validateKeys_missing_mem (JsValue.obj df) (JsValue.obj sf) ""
        (forInKeys (JsValue.obj sf)) es k hv hmem hmiss
      rw [← hok2]
      simpa using hmm
  · exact validateKeys_nested_object_step

/-- Witness for C6 (amended): Scenario C — `data = {id: 1}`,
`schema = {id: 'number', title: 'string'}` records the missing `title`
and still yields a result. -/
theorem validateResponseSchema_walk_behaviour_witness :
    ∃ r, validateResponseSchema (JsValue.obj [("data", JsValue.obj [("id", JsValue.num 1)])])
        (JsValue.obj [("id", JsValue.str "number"), ("title", JsValue.str "string")])
      = Except.ok r ∧ ("Missing property: title") ∈ r.errors := by
  refine ⟨⟨false, ["Missing property: title"]⟩, ?_, ?_⟩
  · simp [validateResponseSchema, validateObject, validateKeys, forInKeys, hasKey, getProp,
      typeOf, isStrV, strictEqStr, isArrV, isNullV, templateStr, parseIndex, Except.map]
  · exact (validateResponseSchema_walk_behaviour).1
      [("id", JsValue.num 1)]
      [("id", JsValue.str "number"), ("title", JsValue.str "string")]
      ⟨false, ["Missing property: title"]⟩ "title"
      (by simp [validateResponseSchema, validateObject, validateKeys, forInKeys, hasKey,
        getProp, typeOf, isStrV, strictEqStr, isArrV, isNullV, templateStr, parseIndex,
        Except.map])
      (by simp [forInKeys]) (by simp [hasKey])

/-! ## Theorems: Assertion Engine -/

/-- C7: `toHaveEmptyBody` accepts `null`, `undefined` and the empty
string but REJECTS the empty array, although `[]` appears in the chai
`oneOf` list of the source: `oneOf` compares with strict `===`, and the
fresh `[]` literal is reference-distinct from every caller value, so the
documented empty-sequence member can never match.  Evaluated at the
failing input `data = []` the check raises. -/
theorem toHaveEmptyBody_rejects_empty_array :
    ((FluentAssertions.mk ⟨204, JsValue.arr [], [], none⟩).toHaveEmptyBody).isOk = false ∧
    ((FluentAssertions.mk ⟨204, JsValue.null, [], none⟩).toHaveEmptyBody
      = Except.ok (FluentAssertions.mk ⟨204, JsValue.null, [], none⟩)) ∧
    ((FluentAssertions.mk ⟨204, JsValue.undefined, [], none⟩).toHaveEmptyBody
      = Except.ok (FluentAssertions.mk ⟨204, JsValue.undefined, [], none⟩)) ∧
    ((FluentAssertions.mk ⟨204, JsValue.str "", [], none⟩).toHaveEmptyBody
      = Except.ok (FluentAssertions.mk ⟨204, JsValue.str "", [], none⟩)) := by
  refine ⟨rfl, rfl, rfl, ?_⟩
  simp [FluentAssertions.toHaveEmptyBody]

/-- C8: every check of the assertion engine that succeeds returns the
exact engine instance it was invoked on (the source ends every check with
`return this`), `and()` is the identity, and `getActual` exposes the
unchanged snapshot — so an arbitrary successful chain operates on the one
original snapshot and no check mutates it. -/
theorem fluentAssertions_chain_identity :
    (∀ (fa r : FluentAssertions) (x : Int),
      fa.toHaveStatus x = Except.ok r → r = fa) ∧
    (∀ (fa r : FluentAssertions) (x y : Int),
      fa.toHaveStatusInRange x y = Except.ok r → r = fa) ∧
    (∀ (fa r : FluentAssertions), fa.toHaveBody = Except.ok r → r = fa) ∧
    (∀ (fa r : FluentAssertions), fa.toHaveEmptyBody = Except.ok r → r = fa) ∧
    (∀ (fa r : FluentAssertions) (p : String),
      fa.toHaveProperty p = Except.ok r → r = fa) ∧
    (∀ (fa r : FluentAssertions) (ps : List String),
      fa.toHaveProperties ps = Except.ok r → r = fa) ∧
    (∀ (fa r : FluentAssertions) (sch : List (String × JsValue)),
      fa.toMatchSchema sch = Except.ok r → r = fa) ∧
    (∀ (fa r : FluentAssertions), fa.toBeArray = Except.ok r → r = fa) ∧
    (∀ (fa r : FluentAssertions) (n : Int),
      fa.toHaveLength n = Except.ok r → r = fa) ∧
    (∀ (fa r : FluentAssertions), fa.toBeObject = Except.ok r → r = fa) ∧
    (∀ (fa r : FluentAssertions) (hn : String) (hv : Option String),
      fa.toHaveHeader hn hv = Except.ok r → r = fa) ∧
    (∀ (fa r : FluentAssertions) (v : JsValue),
      fa.toContain v = Except.ok r → r = fa) ∧
    (∀ (fa r : FluentAssertions) (v : JsValue),
      fa.toEqual v = Except.ok r → r = fa) ∧
    (∀ (fa r : FluentAssertions) (t : Int),
      fa.toRespondWithin t = Except.ok r → r = fa) ∧
    (∀ fa : FluentAssertions, fa.and = fa) ∧
    (∀ fa : FluentAssertions, fa.getActual = fa.actual) := by
  refine ⟨?_, ?_, ?_, ?_, ?_, ?_, ?_, ?_, ?_, ?_, ?_, ?_, ?_, ?_, ?_, ?_⟩
  · intro fa r x h
    unfold FluentAssertions.toHaveStatus at h
    repeat' split at h
    all_goals first
      | (injection h with h2; exact h2.symm)
      | exact Except.noConfusion h
  · intro fa r x y h
    unfold FluentAssertions.toHaveStatusInRange at h
    repeat' split at h
    all_goals first
      | (injection h with h2; exact h2.symm)
      | exact Except.noConfusion h
  · intro fa r h
    unfold FluentAssertions.toHaveBody at h
    repeat' split at h
    all_goals first
      | (injection h with h2; exact h2.symm)
      | exact Except.noConfusion h
  · intro fa r h
    unfold FluentAssertions.toHaveEmptyBody at h
    repeat' split at h
    all_goals first
      | (injection h with h2; exact h2.symm)
      | exact Except.noConfusion h
  · intro fa r p h
    unfold FluentAssertions.toHaveProperty at h
    repeat' split at h
    all_goals first
      | (injection h with h2; exact h2.symm)
      | exact Except.noConfusion h
  · intro fa r ps h
    unfold FluentAssertions.toHaveProperties at h
    repeat' split at h
    all_goals first
      | (injection h with h2; exact h2.symm)
      | exact Except.noConfusion h
  · intro fa r sch h
    unfold FluentAssertions.toMatchSchema at h
    repeat' split at h
    all_goals first
      | (injection h with h2; exact h2.symm)
      | exact Except.noConfusion h
  · intro fa r h
    unfold FluentAssertions.toBeArray at h
    repeat' split at h
    all_goals first
      | (injection h with h2; exact h2.symm)
      | exact Except.noConfusion h
  · intro fa r n h
    unfold FluentAssertions.toHaveLength at h
    repeat' split at h
    all_goals first
      | (injection h with h2; exact h2.symm)
      | exact Except.noConfusion h
  · intro fa r h
    unfold FluentAssertions.toBeObject at h
    repeat' split at h
    all_goals first
      | (injection h with h2; exact h2.symm)
      | exact Except.noConfusion h
  · intro fa r hn hv h
    unfold FluentAssertions.toHaveHeader at h
    repeat' split at h
    all_goals first
      | (injection h with h2; exact h2.symm)
      | exact Except.noConfusion h
  · intro fa r v h
    unfold FluentAssertions.toContain at h
    repeat' split at h
    all_goals first
      | (injection h with h2; exact h2.symm)
      | exact Except.noConfusion h
  · intro fa r v h
    unfold FluentAssertions.toEqual at h
    repeat' split at h
    all_goals first
      | (injection h with h2; exact h2.symm)
      | exact Except.noConfusion h
  · intro fa r t h
    unfold FluentAssertions.toRespondWithin at h
    repeat' split at h
    all_goals first
      | (injection h with h2; exact h2.symm)
      | exact Except.noConfusion h
  · intro fa
    rfl
  · intro fa
    rfl

/-- Witness for C8: the status check on a concrete snapshot hands back
the same engine value. -/
theorem fluentAssertions_chain_identity_witness :
    ∃ r, (FluentAssertions.mk ⟨200, JsValue.obj [("id", JsValue.num 1)], [], none⟩).toHaveStatus
        200 = Except.ok r ∧
      r = FluentAssertions.mk ⟨200, JsValue.obj [("id", JsValue.num 1)], [], none⟩ :=
  ⟨_, rfl, fluentAssertions_chain_identity.1 _ _ 200 rfl⟩

/-! ## Theorems: Transport Client state -/

theorem lookup_none_of_any_false (k : String) :
    ∀ m : List (String × String), m.any (fun p => p.1 == k) = false →
      m.lookup k = none := by
  intro m
  induction m with
  | nil => intro _; rfl
  | cons hd t ih =>
    obtain ⟨k0, v0⟩ := hd
    intro h
    simp only [List.any_cons, Bool.or_eq_false_iff] at h
    have hne : (k == k0) = false := by
      cases hkk : (k == k0) with
      | false => rfl
      | true =>
        have : k = k0 := eq_of_beq hkk
        subst this
        simp at h
    simp only [List.lookup, hne]
    exact ih h.2

theorem lookup_map_setkey (k v : String) :
    ∀ m : List (String × String),
      (m.map (fun p => bif p.1 == k then (k, v) else p)).lookup k
        = if m.any (fun p => p.1 == k) then some v else m.lookup k := by
  intro m
  induction m with
  | nil => simp
  | cons hd t ih =>
    obtain ⟨k0, v0⟩ := hd
    by_cases h0 : k0 = k
    · subst h0
      simp [List.lookup, ih]
    · have hb : (k0 == k) = false := by simp [h0]
      have hb2 : (k == k0) = false := by simp [Ne.symm h0]
      simp only [List.map_cons, hb, Bool.cond_false, List.any_cons, Bool.false_or,
        List.lookup, hb2]
      exact ih

theorem lookup_map_setkey_other (k v k' : String) (hne : k' ≠ k) :
    ∀ m : List (String × String),
      (m.map (fun p => bif p.1 == k then (k, v) else p)).lookup k' = m.lookup k' := by
  intro m
  induction m with
  | nil => rfl
  | cons hd t ih =>
    obtain ⟨k0, v0⟩ := hd
    by_cases h0 : k0 = k
    · subst h0
      have hb2 : (k' == k0) = false := by simp [hne]
      simp only [List.map_cons, beq_self_eq_true, Bool.cond_true, List.lookup, hb2]
      exact ih
    · have hb : (k0 == k) = false := by simp [h0]
      by_cases h2 : k' = k0
      · subst h2
        simp only [List.map_cons, hb, Bool.cond_false, List.lookup, beq_self_eq_true]
      · have hb2 : (k' == k0) = false := by simp [h2]
        simp only [List.map_cons, hb, Bool.cond_false, List.lookup, hb2]
        exact ih

theorem lookup_setHeaderKey_self (m : List (String × String)) (k v : String) :
    (setHeaderKey m k v).lookup k = some v := by
  unfold setHeaderKey
  cases hany : m.any (fun p => p.1 == k) with
  | true =>
    rw [if_pos rfl]
    rw [lookup_map_setkey k v m, hany]
    rfl
  | false =>
    rw [if_neg (by simp)]
    rw [lookup_append_or]
    rw [lookup_none_of_any_false k m hany]
    simp [List.lookup, Option.orElse]

theorem lookup_setHeaderKey_other (m : List (String × String)) (k v k' : String)
    (hne : k' ≠ k) : (setHeaderKey m k v).lookup k' = m.lookup k' := by
  unfold setHeaderKey
  cases hany : m.any (fun p => p.1 == k) with
  | true =>
    rw [if_pos rfl]
    exact lookup_map_setkey_other k v k' hne m
  | false =>
    rw [if_neg (by simp)]
    rw [lookup_append_or]
    cases hm : m.lookup k' with
    | some w => simp [hm, Option.orElse]
    | none =>
      have hb : (k' == k) = false := by simp [hne]
      simp [hm, Option.orElse, List.lookup, hb]

theorem lookup_deleteHeaderKey_self (m : List (String × String)) (k : String) :
    (deleteHeaderKey m k).lookup k = none := by
  unfold deleteHeaderKey
  have h := lookup_filter_keyfun (fun x => x != k) k m
  simp only [bne_self_eq_false, Bool.false_eq_true, if_false] at h
  exact h

theorem lookup_deleteHeaderKey_other (m : List (String × String)) (k k' : String)
    (hne : k' ≠ k) : (deleteHeaderKey m k).lookup k' = m.lookup k' := by
  unfold deleteHeaderKey
  have h := lookup_filter_keyfun (fun x => x != k) k' m
  simp only [bne, hne, Bool.not_eq_true'] at h
  simpa [hne] using h

theorem foldl_setkey_preserves (k : String) :
    ∀ (hs : List (String × String)) (m : List (String × String)),
      hs.lookup k = none →
      ((hs.foldl (fun acc p => setHeaderKey acc p.1 p.2) m).lookup k) = m.lookup k := by
  intro hs
  induction hs with
  | nil => intro m _; rfl
  | cons hd t ih =>
    obtain ⟨k0, v0⟩ := hd
    intro m hnone
    have hne : k ≠ k0 := by
      intro hkk
      subst hkk
      simp [List.lookup] at hnone
    have htail : t.lookup k = none := by
      simp only [List.lookup] at hnone
      cases hkk : (k == k0) with
      | true => exact absurd (eq_of_beq hkk) hne
      | false => rwa [hkk] at hnone
    simp only [List.foldl_cons]
    rw [ih (setHeaderKey m k0 v0) htail]
    exact lookup_setHeaderKey_other m k0 v0 k hne

/-- C9: `setAuthorization(token, scheme)` (scheme defaulting to Bearer)
sets exactly the `Authorization` default header to `<scheme> <token>` and
leaves every other default header, the base URL and the timeout
unchanged; `clearAuthorization()` removes exactly that entry and changes
nothing else; the stored value persists across `setDefaultHeaders` merges
that do not name Authorization and across `setBaseUrl`, until cleared. -/
theorem setAuthorization_frame (s : ClientState) (token scheme : String) :
    ((setAuthorization s token scheme).headers.lookup "Authorization"
      = some (scheme ++ " " ++ token)) ∧
    (∀ k : String, k ≠ "Authorization" →
      (setAuthorization s token scheme).headers.lookup k = s.headers.lookup k) ∧
    ((setAuthorization s token scheme).baseURL = s.baseURL) ∧
    ((setAuthorization s token scheme).timeout = s.timeout) ∧
    ((clearAuthorization s).headers.lookup "Authorization" = none) ∧
    (∀ k : String, k ≠ "Authorization" →
      (clearAuthorization s).headers.lookup k = s.headers.lookup k) ∧
    ((clearAuthorization s).baseURL = s.baseURL) ∧
    ((clearAuthorization s).timeout = s.timeout) ∧
    (∀ hs : List (String × String), hs.lookup "Authorization" = none →
      (setDefaultHeaders (setAuthorization s token scheme) hs).headers.lookup "Authorization"
        = some (scheme ++ " " ++ token)) ∧
    (∀ url : String,
      (setBaseUrl (setAuthorization s token scheme) url).headers.lookup "Authorization"
        = some (scheme ++ " " ++ token)) := by
  refine ⟨?_, ?_, rfl, rfl, ?_, ?_, rfl, rfl, ?_, ?_⟩
  · exact lookup_setHeaderKey_self s.headers "Authorization" (scheme ++ " " ++ token)
  · intro k hk
    exact lookup_setHeaderKey_other s.headers "Authorization" (scheme ++ " " ++ token) k hk
  · exact lookup_deleteHeaderKey_self s.headers "Authorization"
  · intro k hk
    exact lookup_deleteHeaderKey_other s.headers "Authorization" k hk
  · intro hs hnone
    unfold setDefaultHeaders
    rw [foldl_setkey_preserves "Authorization" hs _ hnone]
    exact lookup_setHeaderKey_self s.headers "Authorization" (scheme ++ " " ++ token)
  · intro url
    exact lookup_setHeaderKey_self s.headers "Authorization" (scheme ++ " " ++ token)

/-- Witness for C9 on a concrete client state, also exhibiting the
default Bearer scheme. -/
theorem setAuthorization_frame_witness :
    ((setAuthorization ⟨"https://api.example", 5000, [("Accept", "application/json")]⟩
        "tok123").headers.lookup "Authorization" = some "Bearer tok123") ∧
    ((setAuthorization ⟨"https://api.example", 5000, [("Accept", "application/json")]⟩
        "tok123").headers.lookup "Accept" = some "application/json") ∧
    ((clearAuthorization (setAuthorization
        ⟨"https://api.example", 5000, [("Accept", "application/json")]⟩
        "tok123")).headers.lookup "Authorization" = none) := by
  have h := setAuthorization_frame
    ⟨"https://api.example", 5000, [("Accept", "application/json")]⟩ "tok123" "Bearer"
  have h2 := setAuthorization_frame
    ⟨"https://api.example", 5000, [("Accept", "application/json")]⟩ "tok123" "Bearer"
  refine ⟨?_, ?_, ?_⟩
  · rw [h.1]
    rfl
  · rw [h2.2.1 "Accept" (by decide)]
    rfl
  · exact (setAuthorization_frame (setAuthorization
      ⟨"https://api.example", 5000, [("Accept", "application/json")]⟩ "tok123" "Bearer")
      "tok123" "Bearer").2.2.2.2.1
